import Mathlib

/-!
Verification of the Gibson-Lanni PSF solver (`generate_movie/microscPSF.py`).

The module is pure floating-point numerics over numpy arrays.  We embed it
shallowly over the exact reals `ℝ`:

* the microscope parameter dictionary `mp` becomes a structure of reals;
* numpy arrays become `List ℝ` (2D arrays become `List (List ℝ)`), and
  elementwise / broadcasting operations become `List.map`;
* the external scipy special functions `j0`/`j1`, and the numpy
  least-squares solver `lstsq`, are library routines outside this
  repository, so they enter the embedding as explicit function parameters;
* IEEE division by zero has no exact-real counterpart; we use the Lean
  convention `x / 0 = 0` and treat any value produced through a zero
  denominator as junk (NaN in the floating-point original).
-/

noncomputable section

namespace MicroscPSF

open Real

/-- The microscope parameters dictionary `mp`.  The Python code reads the
fixed keys `NA, M, ng0, ng, ni0, ni, ns, ti0, tg, tg0, zd0` (all microns /
dimensionless reals). -/
structure MicroParams where
  NA : ℝ
  M : ℝ
  ng0 : ℝ
  ng : ℝ
  ni0 : ℝ
  ni : ℝ
  ns : ℝ
  ti0 : ℝ
  tg : ℝ
  tg0 : ℝ
  zd0 : ℝ

/-- Module constant `num_basis = 100` (number of rescaled Bessels). -/
def num_basis : ℕ := 100

/-- Module constant `rho_samples = 1000` (number of pupil samples). -/
def rho_samples : ℕ := 1000

/-- Embedding of `numpy.arange(start, stop, step)`: the values
`start + i*step` for `i = 0, 1, ...`, all strictly below `stop`; over exact
reals the length is the ceiling of `(stop - start)/step`. -/
def arange (start stop step : ℝ) : List ℝ :=
  (List.range ⌈(stop - start) / step⌉₊).map
    (fun i : ℕ => start + (i : ℝ) * step)

/-- Embedding of `calcRv(dxy, xy_size, sampling=2)` from the source:
`rv_max = sqrt(0.5*xy_size*xy_size) + 1` followed by
`numpy.arange(0, rv_max*dxy, dxy/sampling)` with the default `sampling = 2`. -/
def calcRv (dxy : ℝ) (xy_size : ℕ) : List ℝ :=
  arange 0 ((Real.sqrt (0.5 * xy_size * xy_size) + 1) * dxy) (dxy / 2)

/-- Embedding of `configure(mp, wvl)`: the Fourier-Bessel scaling factors
`mp["NA"] * (3 * numpy.arange(1, num_basis + 1) - 2) * 0.436 / wvl`
together with `max_rho = min([NA, ng0, ng, ni0, ni, ns]) / NA`. -/
def configure (mp : MicroParams) (wvl : ℝ) : List ℝ × ℝ :=
  (((List.range num_basis).map
      (fun i => mp.NA * ((3 * (i + 1) - 2 : ℕ) : ℝ) * 0.436 / wvl)),
    min mp.NA (min mp.ng0 (min mp.ng (min mp.ni0 (min mp.ni mp.ns)))) / mp.NA)

/-- Embedding of `OPD(mp, rho, ti, pz, wvl, zd)`, the phase aberration term,
taken pointwise in `rho` (the numpy version maps this scalar formula over
the broadcast of the `rho`, `ti`, `pz`, `zd` arrays). -/
def OPD (mp : MicroParams) (rho ti pz wvl zd : ℝ) : ℝ :=
  let a := mp.NA * mp.zd0 / mp.M
  let k := 2.0 * Real.pi / wvl
  let OPDs := pz * Real.sqrt (mp.ns * mp.ns - mp.NA * mp.NA * rho * rho)
  let OPDi := ti * Real.sqrt (mp.ni * mp.ni - mp.NA * mp.NA * rho * rho) -
    mp.ti0 * Real.sqrt (mp.ni0 * mp.ni0 - mp.NA * mp.NA * rho * rho)
  let OPDg := mp.tg * Real.sqrt (mp.ng * mp.ng - mp.NA * mp.NA * rho * rho) -
    mp.tg0 * Real.sqrt (mp.ng0 * mp.ng0 - mp.NA * mp.NA * rho * rho)
  let OPDt := a * a * (mp.zd0 - zd) * rho * rho / (2.0 * mp.zd0 * zd)
  k * (OPDs + OPDi + OPDg + OPDt)

/-- Numerator of the radial transform of `gLZRScan` (source line 212,
equation 5 of the Li-Xue-Blu paper):
`sf*J1(sf*max_rho)*J0(b*max_rho)*max_rho - b*J0(sf*max_rho)*J1(b*max_rho)*max_rho`.
The zeroth/first order Bessel functions `scipy.special.j0`/`j1` are external
library routines and enter as the parameters `J0`, `J1`. -/
def Rnum (J0 J1 : ℝ → ℝ) (sf b max_rho : ℝ) : ℝ :=
  sf * J1 (sf * max_rho) * J0 (b * max_rho) * max_rho -
    b * J0 (sf * max_rho) * J1 (b * max_rho) * max_rho

/-- Denominator of the radial transform (source line 211):
`denom = scaling_factor * scaling_factor - b * b`. -/
def Rdenom (sf b : ℝ) : ℝ := sf * sf - b * b

/-- One entry of the `R` matrix of `gLZRScan` (source lines 211-213): the
numerator divided by `denom`, with no branch of any kind.  Over `ℝ` the
convention `x / 0 = 0` stands in for the IEEE `0/0 = NaN`. -/
def Rterm (J0 J1 : ℝ → ℝ) (sf b max_rho : ℝ) : ℝ :=
  Rnum J0 J1 sf b max_rho / Rdenom sf b

/-- Modelled from the spec: the finite limit that a regularized
implementation would have to produce at the removable singularity `b → sf`
(the limit-based branch the spec asks for).  Differentiating numerator and
denominator in `b` and using the Bessel identities for the derivatives of
`J0` and `J1` gives `max_rho^2*(J0(sf*max_rho)^2 + J1(sf*max_rho)^2)/2`. -/
def RtermLimit (J0 J1 : ℝ → ℝ) (sf max_rho : ℝ) : ℝ :=
  max_rho ^ 2 * (J0 (sf * max_rho) ^ 2 + J1 (sf * max_rho) ^ 2) / 2

/-- Embedding of `numpy.max` over a nonempty 1D array: the maximum of its
entries (a fold of `max` seeded with the first entry). -/
def npMax (l : List ℝ) : ℝ := l.foldl max (l.headD 0)

/-- Embedding of `numpy.max(PSF_rz)` over the 2D grid: the maximum over all
entries. -/
def gridMax (g : List (List ℝ)) : ℝ := npMax g.flatten

/-- The normalization step of `gLZRScan` and of the slow variants
(`PSF_rz /= numpy.max(PSF_rz)`, source line 221): an unconditional
elementwise division by the global maximum.  numpy float division never
raises; when the maximum is `0` it silently produces `0/0 = NaN` entries
(junk value `0` under the `ℝ` convention). -/
def normalizePSF (psf : List (List ℝ)) : List (List ℝ) :=
  psf.map (fun row => row.map (fun x => x / gridMax psf))

/-- Modelled from the spec: `DegenerateNormalizationError` — a fail-fast
normalization that signals (`none`) when the computed grid maximum is zero
instead of dividing. -/
def normalizeChecked (psf : List (List ℝ)) : Option (List (List ℝ)) :=
  if gridMax psf = 0 then none else some (normalizePSF psf)

/-- Embedding of `numpy.linspace(start, stop, n)`: `n` evenly spaced samples
with both endpoints included (the code only uses it with
`n = rho_samples = 1000`). -/
def linspace (start stop : ℝ) (n : ℕ) : List ℝ :=
  (List.range n).map
    (fun i : ℕ => start + (stop - start) * (i : ℝ) / ((n : ℝ) - 1))

/-- Number of columns of a rectangular 2D array represented as a list of
rows (the length of the first row, `0` when there are no rows). -/
def ncols {α : Type} (A : List (List α)) : ℕ := (A.headD []).length

/-- Column `j` of a 2D array. -/
def matCol {α : Type} [Zero α] (A : List (List α)) (j : ℕ) : List α :=
  A.map (fun r => r.getD j 0)

/-- Embedding of the numpy transpose `A.T` of a rectangular 2D array. -/
def matT {α : Type} [Zero α] (A : List (List α)) : List (List α) :=
  (List.range (ncols A)).map (fun j => matCol A j)

/-- Dot product of two complex vectors (a row and a column). -/
def dotC (u v : List ℂ) : ℂ := ((u.zip v).map (fun p => p.1 * p.2)).sum

/-- Embedding of the numpy matrix product `A.dot(B)` of rectangular complex
2D arrays. -/
def matMul (A B : List (List ℂ)) : List (List ℂ) :=
  A.map (fun r => (List.range (ncols B)).map (fun j => dotC r (matCol B j)))

/-- The pupil sample vector of `gLZRScan` and of the slow scans:
`rho = numpy.linspace(0.0, max_rho, rho_samples)`. -/
def glsRho (mp : MicroParams) (wvl : ℝ) : List ℝ :=
  linspace 0 (configure mp wvl).2 rho_samples

/-- The aperture radius used by `gLZRScan` and `slowGL` (source line 180):
`a = NA*zd0/sqrt(M*M + NA*NA)`. -/
def glsA (mp : MicroParams) : ℝ :=
  mp.NA * mp.zd0 / Real.sqrt (mp.M * mp.M + mp.NA * mp.NA)

/-- The sampled phase argument of `gLZRScan` (source lines 183-187):
`opdt = OPD(mp, rho, zv + ti0, pz, wvl, zd)`, one row per `zv` entry.  The
claims below instantiate the focal-scan call shape, where `pz` and `zd` are
the length-1 arrays built by `gLZRFocalScan` and hence broadcast as
scalars. -/
def glsOpdt (mp : MicroParams) (pz zd wvl : ℝ) (zv : List ℝ) :
    List (List ℝ) :=
  (zv.map (fun z => z + mp.ti0)).map
    (fun t => (glsRho mp wvl).map (fun p => OPD mp p t pz wvl zd))

/-- The sampled pupil phase of `gLZRScan` (source line 191):
`phase = numpy.exp(1j * opdt)`. -/
def glsPhase (mp : MicroParams) (pz zd wvl : ℝ) (zv : List ℝ) :
    List (List ℂ) :=
  (glsOpdt mp pz zd wvl zv).map
    (fun row => row.map (fun x => Complex.exp (Complex.I * (x : ℝ))))

/-- The Bessel basis matrix of `gLZRScan` (source line 195):
`J = scipy.special.j0(scaling_factor.reshape(-1, 1) * rho)`, promoted to
complex for the least-squares solve. -/
def glsJ (J0 : ℝ → ℝ) (mp : MicroParams) (wvl : ℝ) : List (List ℂ) :=
  (configure mp wvl).1.map
    (fun sf => (glsRho mp wvl).map (fun p => ((J0 (sf * p) : ℝ) : ℂ)))

/-- The Fourier-Bessel coefficients of `gLZRScan` (source line 201):
`C, ... = numpy.linalg.lstsq(J.T, phase.T)`.  The solver is an external
numpy routine and enters as the parameter `lstsq`. -/
def glsC (J0 : ℝ → ℝ)
    (lstsq : List (List ℂ) → List (List ℂ) → List (List ℂ))
    (mp : MicroParams) (pz zd wvl : ℝ) (zv : List ℝ) : List (List ℂ) :=
  lstsq (matT (glsJ J0 mp wvl)) (matT (glsPhase mp pz zd wvl zv))

/-- The `R` matrix of `gLZRScan` (source lines 203-213): one row per radius
value (after the magnification rescale `rv = rv*M` and
`b = k*a*rv/zd`), one column per basis function. -/
def glsR (J0 J1 : ℝ → ℝ) (mp : MicroParams) (wvl zd : ℝ) (rv : List ℝ) :
    List (List ℂ) :=
  (rv.map (fun r => r * mp.M)).map
    (fun r => (configure mp wvl).1.map
      (fun sf =>
        ((Rterm J0 J1 sf (2.0 * Real.pi / wvl * glsA mp * r / zd)
            (configure mp wvl).2 : ℝ) : ℂ)))

/-- Embedding of `gLZRScan(mp, pz, rv, zd, zv, normalize, wvl)` in the
focal-scan call shape (`pz` and `zd` are the scalars that the length-1
arrays built by `gLZRFocalScan` broadcast to):
`PSF_rz = (abs(R.dot(C))**2).T`, then optional normalization. -/
def gLZRScan (J0 J1 : ℝ → ℝ)
    (lstsq : List (List ℂ) → List (List ℂ) → List (List ℂ))
    (mp : MicroParams) (pz : ℝ) (rv : List ℝ) (zd : ℝ) (zv : List ℝ)
    (normalize : Bool) (wvl : ℝ) : List (List ℝ) :=
  let PSF_rz :=
    matT ((matMul (glsR J0 J1 mp wvl zd rv) (glsC J0 lstsq mp pz zd wvl zv)).map
      (fun row => row.map (fun z => Complex.normSq z)))
  if normalize then normalizePSF PSF_rz else PSF_rz

/-- Embedding of `gLZRFocalScan(mp, rv, zv, normalize, pz, wvl, zd)`:
defaults `zd` to the design value `zd0` when unspecified and delegates to
`gLZRScan` with `pz` and `zd` as length-1 arrays (scalars here). -/
def gLZRFocalScan (J0 J1 : ℝ → ℝ)
    (lstsq : List (List ℂ) → List (List ℂ) → List (List ℂ))
    (mp : MicroParams) (rv zv : List ℝ) (normalize : Bool) (pz wvl : ℝ)
    (zd : Option ℝ) : List (List ℝ) :=
  gLZRScan J0 J1 lstsq mp pz rv (zd.getD mp.zd0) zv normalize wvl

/-- The pixel-center radius grid of `psfRZToPSFXYZ` (source lines 335-337):
`c_xy = xy_size*0.5`, `xy = mgrid[0:xy_size, 0:xy_size] + 0.5`,
`r_pixel = dxy*sqrt((xy[1]-c_xy)^2 + (xy[0]-c_xy)^2)` at pixel `(i, j)`. -/
def rpix (dxy : ℝ) (xy_size i j : ℕ) : ℝ :=
  dxy * Real.sqrt
    (((j : ℝ) + 0.5 - (xy_size : ℝ) * 0.5) ^ 2 +
      ((i : ℝ) + 0.5 - (xy_size : ℝ) * 0.5) ^ 2)

/-- Piecewise-linear 1D interpolation, the reference behavior of the
external `scipy.interpolate.interp1d(rv, PSF_rz[i,:])` used by
`psfRZToPSFXYZ`.  Its values do not matter for the claims below (only
shapes and the interpolation range do). -/
def interp1 : List ℝ → List ℝ → ℝ → ℝ
  | x0 :: x1 :: xs, y0 :: y1 :: ys, x =>
    if x ≤ x1 then y0 + (y1 - y0) * (x - x0) / (x1 - x0)
    else interp1 (x1 :: xs) (y1 :: ys) x
  | _, _, _ => 0

/-- Embedding of `psfRZToPSFXYZ(dxy, xy_size, rv, PSF_rz)`: for each axial
slice, fill an `xy_size × xy_size` image by 1D interpolation of the radial
profile at each pixel-center radius. -/
def psfRZToPSFXYZ (dxy : ℝ) (xy_size : ℕ) (rv : List ℝ)
    (PSF_rz : List (List ℝ)) : List (List (List ℝ)) :=
  PSF_rz.map (fun slice =>
    (List.range xy_size).map (fun i =>
      (List.range xy_size).map (fun j =>
        interp1 rv slice (rpix dxy xy_size i j))))

/-- Embedding of `gLXYZFocalScan(mp, dxy, xy_size, zv, normalize, pz, wvl,
zd)`: compute `rv = calcRv(dxy, xy_size)`, the radial PSF by
`gLZRFocalScan`, then the Cartesian volume by `psfRZToPSFXYZ`. -/
def gLXYZFocalScan (J0 J1 : ℝ → ℝ)
    (lstsq : List (List ℂ) → List (List ℂ) → List (List ℂ))
    (mp : MicroParams) (dxy : ℝ) (xy_size : ℕ) (zv : List ℝ)
    (normalize : Bool) (pz wvl : ℝ) (zd : Option ℝ) :
    List (List (List ℝ)) :=
  psfRZToPSFXYZ dxy xy_size (calcRv dxy xy_size)
    (gLZRFocalScan J0 J1 lstsq mp (calcRv dxy xy_size) zv normalize pz wvl zd)

/-- Representative parameter set from the spec (NA=1.4, M=100, matched
oil-immersion indices, ns=1.33, ti0=150, tg=tg0=170, zd0=150000). -/
def mpEx : MicroParams :=
  { NA := 1.4, M := 100, ng0 := 1.515, ng := 1.515, ni0 := 1.515,
    ni := 1.515, ns := 1.33, ti0 := 150, tg := 170, tg0 := 170,
    zd0 := 150000 }

/-- A concrete least-squares stand-in satisfying the numpy shape contract
(used only inside witnesses). -/
def lstsqEx (A B : List (List ℂ)) : List (List ℂ) :=
  (List.range (ncols A)).map (fun _ => (List.range (ncols B)).map (fun _ => 0))

end MicroscPSF

namespace MicroscPSF

theorem arange_length (start stop step : ℝ) :
    (arange start stop step).length = ⌈(stop - start) / step⌉₊ := by
  rw [arange, List.length_map, List.length_range]

theorem arange_getD (start stop step : ℝ) (i : ℕ)
    (h : i < (arange start stop step).length) :
    (arange start stop step).getD i 0 = start + i * step := by
  rw [arange] at h ⊢
  rw [List.getD_eq_getElem _ _ h]
  simp only [List.getElem_map, List.getElem_range]

/-- Claim C5: `configure(mp, wvl)` returns `num_basis = 100` scaling factors
`sf_m = NA*(3m-2)*0.436/wvl` for `m = 1..100`, and
`max_rho = min(NA, ng0, ng, ni0, ni, ns)/NA`. -/
theorem configure_spec (mp : MicroParams) (wvl : ℝ) (m : ℕ)
    (h1 : 1 ≤ m) (h2 : m ≤ num_basis) :
    (configure mp wvl).1.length = num_basis ∧
    (configure mp wvl).1.getD (m - 1) 0 =
      mp.NA * (3 * (m : ℝ) - 2) * 0.436 / wvl ∧
    (configure mp wvl).2 =
      min mp.NA (min mp.ng0 (min mp.ng (min mp.ni0 (min mp.ni mp.ns)))) /
        mp.NA := by
  refine ⟨by simp [configure], ?_, rfl⟩
  have hm : m - 1 < num_basis := by omega
  rw [show (configure mp wvl).1 =
      (List.range num_basis).map
        (fun i => mp.NA * ((3 * (i + 1) - 2 : ℕ) : ℝ) * 0.436 / wvl) from rfl]
  rw [List.getD_eq_getElem _ _ (by simpa using hm)]
  simp only [List.getElem_map, List.getElem_range]
  have hsucc : m - 1 + 1 = m := by omega
  rw [hsucc]
  have hcast : ((3 * m - 2 : ℕ) : ℝ) = 3 * (m : ℝ) - 2 := by
    have h32 : (2 : ℕ) ≤ 3 * m := by omega
    push_cast [Nat.cast_sub h32]
    ring
  rw [hcast]

/-- Witness for claim C5 at `m = 1`, the representative parameters and
`wvl = 0.6`. -/
theorem configure_spec_witness :
    (1 : ℕ) ≤ 1 ∧ (1 : ℕ) ≤ num_basis ∧
      ((configure mpEx 0.6).1.length = num_basis ∧
        (configure mpEx 0.6).1.getD 0 0 =
          mpEx.NA * (3 * (1 : ℝ) - 2) * 0.436 / 0.6 ∧
        (configure mpEx 0.6).2 =
          min mpEx.NA
              (min mpEx.ng0 (min mpEx.ng (min mpEx.ni0 (min mpEx.ni mpEx.ns)))) /
            mpEx.NA) :=
  ⟨le_refl 1, by decide,
    by simpa using configure_spec mpEx 0.6 1 (le_refl 1) (by decide)⟩

/-- Claim C7: for every `dxy > 0` and `xy_size ≥ 1`, `calcRv dxy xy_size` is
a nonempty, strictly increasing sequence starting at `0` with constant step
`dxy/2`. -/
theorem calcRv_strictly_increasing (dxy : ℝ) (xy_size : ℕ)
    (hd : 0 < dxy) (hs : 1 ≤ xy_size) :
    0 < (calcRv dxy xy_size).length ∧
    (calcRv dxy xy_size).getD 0 0 = 0 ∧
    ∀ i, i + 1 < (calcRv dxy xy_size).length →
      (calcRv dxy xy_size).getD (i + 1) 0 =
        (calcRv dxy xy_size).getD i 0 + dxy / 2 ∧
      (calcRv dxy xy_size).getD i 0 < (calcRv dxy xy_size).getD (i + 1) 0 := by
  have hstop : 0 < (Real.sqrt (0.5 * xy_size * xy_size) + 1) * dxy := by
    have h1 : (0 : ℝ) ≤ Real.sqrt (0.5 * xy_size * xy_size) :=
      Real.sqrt_nonneg _
    nlinarith
  have hstep : 0 < dxy / 2 := by linarith
  have hlen : 0 < (calcRv dxy xy_size).length := by
    rw [calcRv, arange_length, Nat.ceil_pos, sub_zero]
    exact div_pos hstop hstep
  refine ⟨hlen, ?_, ?_⟩
  · rw [calcRv, arange_getD _ _ _ 0 (by simpa [calcRv] using hlen)]
    simp
  · intro i hi
    have hgi : (calcRv dxy xy_size).getD i 0 = i * (dxy / 2) := by
      rw [calcRv,
        arange_getD _ _ _ i (by simpa [calcRv] using Nat.lt_of_succ_lt hi)]
      simp
    have hgi1 : (calcRv dxy xy_size).getD (i + 1) 0 = (i + 1) * (dxy / 2) := by
      rw [calcRv, arange_getD _ _ _ (i + 1) (by simpa [calcRv] using hi)]
      push_cast
      ring
    constructor
    · rw [hgi, hgi1]; push_cast; ring
    · rw [hgi, hgi1]
      have : (i : ℝ) < (i : ℝ) + 1 := by linarith
      push_cast
      nlinarith

/-- Witness for claim C7 at `dxy = 0.1`, `xy_size = 10` (the inputs named in
the spec). -/
theorem calcRv_strictly_increasing_witness :
    (0 : ℝ) < 0.1 ∧ (1 : ℕ) ≤ 10 ∧
      (0 < (calcRv 0.1 10).length ∧
        (calcRv 0.1 10).getD 0 0 = 0 ∧
        ∀ i, i + 1 < (calcRv 0.1 10).length →
          (calcRv 0.1 10).getD (i + 1) 0 =
            (calcRv 0.1 10).getD i 0 + 0.1 / 2 ∧
          (calcRv 0.1 10).getD i 0 < (calcRv 0.1 10).getD (i + 1) 0) :=
  ⟨by norm_num, by decide,
    calcRv_strictly_increasing 0.1 10 (by norm_num) (by decide)⟩

/-- Claim C4: `OPD` returns `k*(OPD_sample + OPD_immersion + OPD_coverslip +
OPD_defocus)` with `k = 2π/wvl`, `OPD_sample = pz*sqrt(ns² - NA²ρ²)`,
`OPD_immersion = ti*sqrt(ni² - NA²ρ²) - ti0*sqrt(ni0² - NA²ρ²)`,
`OPD_coverslip = tg*sqrt(ng² - NA²ρ²) - tg0*sqrt(ng0² - NA²ρ²)` and
`OPD_defocus = a²(zd0 - zd)ρ²/(2·zd0·zd)` where `a = NA·zd0/M`. -/
theorem OPD_formula (mp : MicroParams) (rho ti pz wvl zd : ℝ) :
    OPD mp rho ti pz wvl zd =
      (2 * Real.pi / wvl) *
        (pz * Real.sqrt (mp.ns ^ 2 - mp.NA ^ 2 * rho ^ 2) +
          (ti * Real.sqrt (mp.ni ^ 2 - mp.NA ^ 2 * rho ^ 2) -
            mp.ti0 * Real.sqrt (mp.ni0 ^ 2 - mp.NA ^ 2 * rho ^ 2)) +
          (mp.tg * Real.sqrt (mp.ng ^ 2 - mp.NA ^ 2 * rho ^ 2) -
            mp.tg0 * Real.sqrt (mp.ng0 ^ 2 - mp.NA ^ 2 * rho ^ 2)) +
          (mp.NA * mp.zd0 / mp.M) ^ 2 * (mp.zd0 - zd) * rho ^ 2 /
            (2 * mp.zd0 * zd)) := by
  unfold OPD
  ring_nf

/-- Claim C6: when the actual values match the design values
(`ni = ni0`, `ng = ng0`, `tg = tg0`) the phase `OPD(mp, ρ, ti0, 0, wvl, zd0)`
is exactly `0` for every `ρ`: the sample term vanishes with `pz = 0`, the
immersion and coverslip mismatches cancel, and the defocus term vanishes
because `zd = zd0`. -/
theorem OPD_zero_case (mp : MicroParams) (rho wvl : ℝ)
    (hni : mp.ni = mp.ni0) (hng : mp.ng = mp.ng0) (htg : mp.tg = mp.tg0) :
    OPD mp rho mp.ti0 0 wvl mp.zd0 = 0 := by
  unfold OPD
  rw [hni, hng, htg]
  ring

/-- Witness for claim C6 at the representative matched parameter set. -/
theorem OPD_zero_case_witness :
    mpEx.ni = mpEx.ni0 ∧ mpEx.ng = mpEx.ng0 ∧ mpEx.tg = mpEx.tg0 ∧
      OPD mpEx 0.5 mpEx.ti0 0 0.6 mpEx.zd0 = 0 :=
  ⟨rfl, rfl, rfl, OPD_zero_case mpEx 0.5 0.6 rfl rfl rfl⟩

/-- Counterexample for claim C2: the radial transform of `gLZRScan` does NOT
special-case or regularize the zero denominator.  At `sf = b` the directly
evaluated quotient `Rterm` is the junk value of `0/0` (here `0`), which
differs from the removable-singularity limit `RtermLimit` that the claim
requires (shown at the concrete instance `J0 = const 1`, `J1 = const 0`,
`sf = b = max_rho = 1`, where the limit is `1/2`). -/
theorem Rterm_regularized_counterexample :
    ¬ ∀ (J0 J1 : ℝ → ℝ) (sf b max_rho : ℝ), sf ^ 2 = b ^ 2 →
        Rterm J0 J1 sf b max_rho = RtermLimit J0 J1 sf max_rho := by
  intro h
  have hc := h (fun _ => 1) (fun _ => 0) 1 1 1 (by norm_num)
  simp only [Rterm, Rnum, Rdenom, RtermLimit] at hc
  norm_num at hc

/-- Claim C2 amended: `gLZRScan` evaluates the radial-transform division
directly with denominator `sf*sf - b*b` and no special case; at `b = sf`
(the singular case) both the numerator and the denominator are exactly `0`,
so the direct evaluation is `0/0` (NaN in IEEE arithmetic). -/
theorem Rterm_direct_division_at_singularity (J0 J1 : ℝ → ℝ)
    (sf max_rho : ℝ) :
    Rnum J0 J1 sf sf max_rho = 0 ∧ Rdenom sf sf = 0 ∧
      Rterm J0 J1 sf sf max_rho = Rnum J0 J1 sf sf max_rho / Rdenom sf sf :=
  ⟨by rw [Rnum]; ring, by rw [Rdenom]; ring, rfl⟩

theorem foldl_max_all_zero (l : List ℝ) (h : ∀ x ∈ l, x = 0) :
    l.foldl max 0 = 0 := by
  induction l with
  | nil => rfl
  | cons a t ih =>
    have ha := h a (by simp)
    rw [List.foldl_cons, ha, max_self]
    exact ih (fun x hx => h x (by simp [hx]))

theorem npMax_all_zero (l : List ℝ) (h : ∀ x ∈ l, x = 0) : npMax l = 0 := by
  cases l with
  | nil => rfl
  | cons a t =>
    have ha := h a (by simp)
    subst ha
    rw [npMax, List.headD_cons]
    exact foldl_max_all_zero _ h

theorem gridMax_all_zero (psf : List (List ℝ))
    (h : ∀ row ∈ psf, ∀ x ∈ row, x = 0) : gridMax psf = 0 := by
  apply npMax_all_zero
  intro x hx
  rw [List.mem_flatten] at hx
  obtain ⟨row, hr, hxr⟩ := hx
  exact h row hr x hxr

/-- Counterexample for claim C3: with normalization requested on an all-dark
grid, `gLZRScan` does not fail fast with a typed error — line 221 divides
unconditionally and returns a grid (every entry the junk `0/0`, NaN in IEEE
arithmetic), while the fail-fast behavior modelled from the spec
(`normalizeChecked`) signals `none` on the same input. -/
theorem normalize_degenerate_counterexample :
    gridMax [[0, 0], [0, 0]] = 0 ∧
      normalizeChecked [[0, 0], [0, 0]] = none ∧
      normalizePSF [[0, 0], [0, 0]] = [[0, 0], [0, 0]] := by
  have h0 : gridMax ([[0, 0], [0, 0]] : List (List ℝ)) = 0 := by
    norm_num [gridMax, npMax]
  exact ⟨h0, by simp [normalizeChecked, h0],
    by simp [normalizePSF, h0, List.replicate_succ]⟩

/-- Claim C3 amended: the normalization step of `gLZRScan` (and of the slow
variants) divides unconditionally; on an all-dark grid the maximum is `0`
and the call silently returns the elementwise `0/0` grid — all NaN in IEEE
arithmetic, the unchanged grid under the exact-real junk convention —
instead of raising a typed `DegenerateNormalizationError` (modelled by
`normalizeChecked`, which signals `none` there). -/
theorem normalizePSF_silent_on_all_dark (psf : List (List ℝ))
    (h : ∀ row ∈ psf, ∀ x ∈ row, x = 0) :
    gridMax psf = 0 ∧ normalizeChecked psf = none ∧ normalizePSF psf = psf := by
  have h0 := gridMax_all_zero psf h
  refine ⟨h0, by simp [normalizeChecked, h0], ?_⟩
  unfold normalizePSF
  have hrow : ∀ row ∈ psf, row.map (fun x => x / gridMax psf) = row := by
    intro row hr
    have hx : ∀ x ∈ row, x / gridMax psf = x := by
      intro x hx
      rw [h row hr x hx]
      simp
    rw [List.map_congr_left hx]
    exact List.map_id row
  rw [List.map_congr_left hrow]
  exact List.map_id psf

/-- Witness for the amended claim C3 on the concrete all-dark grid
`[[0, 0]]`. -/
theorem normalizePSF_silent_on_all_dark_witness :
    (∀ row ∈ ([[0, 0]] : List (List ℝ)), ∀ x ∈ row, x = 0) ∧
      (gridMax [[0, 0]] = 0 ∧ normalizeChecked [[0, 0]] = none ∧
        normalizePSF [[0, 0]] = [[0, 0]]) :=
  ⟨by norm_num, normalizePSF_silent_on_all_dark [[0, 0]] (by norm_num)⟩

theorem linspace_length (start stop : ℝ) (n : ℕ) :
    (linspace start stop n).length = n := by
  simp [linspace]

theorem ncols_map_of_ne_nil {α β : Type} (g : α → List β) (l : List α)
    (h : l ≠ []) (n : ℕ) (hg : ∀ a, (g a).length = n) :
    ncols (l.map g) = n := by
  cases l with
  | nil => exact absurd rfl h
  | cons a t => simpa [ncols] using hg a

theorem ncols_of_rows {α : Type} (C : List (List α)) (h : C ≠ []) (n : ℕ)
    (hr : ∀ row ∈ C, row.length = n) : ncols C = n := by
  cases C with
  | nil => exact absurd rfl h
  | cons r t => simpa [ncols] using hr r (by simp)

theorem matT_length {α : Type} [Zero α] (A : List (List α)) :
    (matT A).length = ncols A := by
  simp [matT]

theorem matCol_length {α : Type} [Zero α] (A : List (List α)) (j : ℕ) :
    (matCol A j).length = A.length := by
  simp [matCol]

theorem ncols_matT {α : Type} [Zero α] (A : List (List α))
    (h : 0 < ncols A) : ncols (matT A) = A.length := by
  refine ncols_of_rows _ ?_ _ ?_
  · rw [matT]
    simp only [ne_eq, List.map_eq_nil_iff, List.range_eq_nil]
    omega
  · intro row hrow
    rw [matT] at hrow
    obtain ⟨j, hj, rfl⟩ := List.mem_map.1 hrow
    exact matCol_length A j

theorem matMul_length (A B : List (List ℂ)) :
    (matMul A B).length = A.length := by
  simp [matMul]

theorem matMul_rows (A B : List (List ℂ)) :
    ∀ row ∈ matMul A B, row.length = ncols B := by
  intro row hr
  rw [matMul] at hr
  obtain ⟨r, hrr, rfl⟩ := List.mem_map.1 hr
  simp

theorem ncols_matMul (A B : List (List ℂ)) (h : A ≠ []) :
    ncols (matMul A B) = ncols B := by
  refine ncols_of_rows _ ?_ _ (matMul_rows A B)
  simpa [matMul] using h

theorem ncols_map_map {α β : Type} (f : α → β) (A : List (List α)) :
    ncols (A.map (fun r => r.map f)) = ncols A := by
  cases A with
  | nil => rfl
  | cons r t => simp [ncols]

theorem glsPhase_length (mp : MicroParams) (pz zd wvl : ℝ) (zv : List ℝ) :
    (glsPhase mp pz zd wvl zv).length = zv.length := by
  simp [glsPhase, glsOpdt]

theorem ncols_matT_glsPhase (mp : MicroParams) (pz zd wvl : ℝ)
    (zv : List ℝ) :
    ncols (matT (glsPhase mp pz zd wvl zv)) = zv.length := by
  cases hz : zv with
  | nil => simp [glsPhase, glsOpdt, matT, ncols]
  | cons z t =>
    have hcols : ncols (glsPhase mp pz zd wvl (z :: t)) = rho_samples := by
      rw [glsPhase]
      rw [show (glsOpdt mp pz zd wvl (z :: t)).map
            (fun row => row.map (fun x => Complex.exp (Complex.I * (x : ℝ)))) =
          ((z :: t).map (fun w => w + mp.ti0)).map
            ((fun row => row.map (fun x => Complex.exp (Complex.I * (x : ℝ)))) ∘
              (fun s => (glsRho mp wvl).map (fun p => OPD mp p s pz wvl zd)))
        from by rw [glsOpdt, List.map_map]]
      refine ncols_map_of_ne_nil _ _ (by simp) _ ?_
      intro s
      simp [glsRho, linspace]
    rw [ncols_matT _ (by rw [hcols]; norm_num [rho_samples]),
      glsPhase_length]

theorem glsC_length (J0 : ℝ → ℝ)
    (lstsq : List (List ℂ) → List (List ℂ) → List (List ℂ))
    (Hlen : ∀ A B, (lstsq A B).length = ncols A)
    (mp : MicroParams) (pz zd wvl : ℝ) (zv : List ℝ) :
    (glsC J0 lstsq mp pz zd wvl zv).length = num_basis := by
  have hsf : (configure mp wvl).1.length = num_basis := by simp [configure]
  have hsf_ne : (configure mp wvl).1 ≠ [] := by
    refine List.ne_nil_of_length_pos ?_
    rw [hsf]
    norm_num [num_basis]
  have hJcols : ncols (glsJ J0 mp wvl) = rho_samples := by
    rw [glsJ]
    refine ncols_map_of_ne_nil _ _ hsf_ne _ ?_
    intro sf
    simp [glsRho, linspace]
  have hJlen : (glsJ J0 mp wvl).length = num_basis := by
    simp [glsJ, hsf]
  rw [glsC, Hlen, ncols_matT _ (by rw [hJcols]; norm_num [rho_samples]), hJlen]

theorem gLZRScan_length (J0 J1 : ℝ → ℝ)
    (lstsq : List (List ℂ) → List (List ℂ) → List (List ℂ))
    (Hlen : ∀ A B, (lstsq A B).length = ncols A)
    (Hrow : ∀ A B, ∀ row ∈ lstsq A B, row.length = ncols B)
    (mp : MicroParams) (pz : ℝ) (rv : List ℝ) (zd : ℝ) (zv : List ℝ)
    (normalize : Bool) (wvl : ℝ) (hrv : rv ≠ []) :
    (gLZRScan J0 J1 lstsq mp pz rv zd zv normalize wvl).length = zv.length := by
  have hC_ne : glsC J0 lstsq mp pz zd wvl zv ≠ [] := by
    refine List.ne_nil_of_length_pos ?_
    rw [glsC_length J0 lstsq Hlen]
    norm_num [num_basis]
  have hC_rows : ∀ row ∈ glsC J0 lstsq mp pz zd wvl zv,
      row.length = zv.length := by
    intro row hr
    rw [glsC] at hr
    have := Hrow _ _ row hr
    rwa [ncols_matT_glsPhase] at this
  have hC_ncols : ncols (glsC J0 lstsq mp pz zd wvl zv) = zv.length :=
    ncols_of_rows _ hC_ne _ hC_rows
  have hR_ne : glsR J0 J1 mp wvl zd rv ≠ [] := by
    simpa [glsR] using hrv
  have hcore : (matT (((matMul (glsR J0 J1 mp wvl zd rv)
        (glsC J0 lstsq mp pz zd wvl zv))).map
      (fun row => row.map (fun z => Complex.normSq z)))).length = zv.length := by
    rw [matT_length, ncols_map_map, ncols_matMul _ _ hR_ne, hC_ncols]
  rw [gLZRScan]
  cases normalize with
  | false => simpa using hcore
  | true => simpa [normalizePSF] using hcore

theorem calcRv_ne_nil (dxy : ℝ) (xy_size : ℕ) (hd : 0 < dxy) :
    calcRv dxy xy_size ≠ [] := by
  refine List.ne_nil_of_length_pos ?_
  have hstop : 0 < (Real.sqrt (0.5 * xy_size * xy_size) + 1) * dxy := by
    have h1 : (0 : ℝ) ≤ Real.sqrt (0.5 * xy_size * xy_size) :=
      Real.sqrt_nonneg _
    nlinarith
  rw [calcRv, arange_length, Nat.ceil_pos, sub_zero]
  exact div_pos hstop (by linarith)

/-- Claim C8: for every parameter set, `dxy > 0`, `xy_size ≥ 1` and
focus-offset vector `zv`, `gLXYZFocalScan` returns a 3D volume of shape
`(zv.length, xy_size, xy_size)`, with the axial dimension first.  The
external `numpy.linalg.lstsq` enters as the parameter `lstsq`, constrained
only by its documented shape contract (`lstsq A B` has `ncols A` rows of
length `ncols B`). -/
theorem gLXYZFocalScan_shape (J0 J1 : ℝ → ℝ)
    (lstsq : List (List ℂ) → List (List ℂ) → List (List ℂ))
    (Hlen : ∀ A B, (lstsq A B).length = ncols A)
    (Hrow : ∀ A B, ∀ row ∈ lstsq A B, row.length = ncols B)
    (mp : MicroParams) (dxy : ℝ) (xy_size : ℕ) (zv : List ℝ)
    (normalize : Bool) (pz wvl : ℝ) (zd : Option ℝ)
    (hd : 0 < dxy) (hs : 1 ≤ xy_size) :
    (gLXYZFocalScan J0 J1 lstsq mp dxy xy_size zv normalize pz wvl
        zd).length = zv.length ∧
    ∀ slice ∈ gLXYZFocalScan J0 J1 lstsq mp dxy xy_size zv normalize pz wvl
        zd,
      slice.length = xy_size ∧ ∀ row ∈ slice, row.length = xy_size := by
  have hrv := calcRv_ne_nil dxy xy_size hd
  constructor
  · rw [gLXYZFocalScan, psfRZToPSFXYZ, List.length_map, gLZRFocalScan]
    exact gLZRScan_length J0 J1 lstsq Hlen Hrow mp pz (calcRv dxy xy_size)
      (zd.getD mp.zd0) zv normalize wvl hrv
  · intro slice hsl
    rw [gLXYZFocalScan, psfRZToPSFXYZ] at hsl
    obtain ⟨sl, hmem, rfl⟩ := List.mem_map.1 hsl
    constructor
    · simp
    · intro row hr
      obtain ⟨i, hi, rfl⟩ := List.mem_map.1 hr
      simp

/-- Witness for claim C8 with the concrete shape-respecting least-squares
stand-in `lstsqEx`, zero Bessel stand-ins, the representative parameters,
`dxy = 1`, `xy_size = 1` and `zv = [0]`. -/
theorem gLXYZFocalScan_shape_witness :
    (∀ A B, (lstsqEx A B).length = ncols A) ∧
    (∀ A B, ∀ row ∈ lstsqEx A B, row.length = ncols B) ∧
    (0 : ℝ) < 1 ∧ (1 : ℕ) ≤ 1 ∧
    ((gLXYZFocalScan (fun _ => 0) (fun _ => 0) lstsqEx mpEx 1 1 [0] true 0
        0.6 none).length = 1 ∧
      ∀ slice ∈ gLXYZFocalScan (fun _ => 0) (fun _ => 0) lstsqEx mpEx 1 1 [0]
          true 0 0.6 none,
        slice.length = 1 ∧ ∀ row ∈ slice, row.length = 1) :=
  ⟨fun A B => by simp [lstsqEx],
    fun A B row hr => by
      obtain ⟨j, hj, rfl⟩ := List.mem_map.1 hr
      simp,
    by norm_num, le_refl 1,
    by
      simpa using gLXYZFocalScan_shape (fun _ => 0) (fun _ => 0) lstsqEx
        (fun A B => by simp [lstsqEx])
        (fun A B row hr => by
          obtain ⟨j, hj, rfl⟩ := List.mem_map.1 hr
          simp)
        mpEx 1 1 [0] true 0 0.6 none (by norm_num) (le_refl 1)⟩

/-- Claim C9: every pixel-center radius `rpix` computed in `psfRZToPSFXYZ`
lies inside the radius range sampled by `calcRv`: it is nonnegative (the
first `calcRv` sample is `0`) and at most the last `calcRv` sample, so in
the `gLXYZ*` pipelines the per-slice 1D interpolation never needs to
extrapolate. -/
theorem rpix_within_calcRv_range (dxy : ℝ) (xy_size i j : ℕ)
    (hd : 0 < dxy) (hs : 1 ≤ xy_size) (hi : i < xy_size) (hj : j < xy_size) :
    0 ≤ rpix dxy xy_size i j ∧
      rpix dxy xy_size i j ≤
        (calcRv dxy xy_size).getD ((calcRv dxy xy_size).length - 1) 0 := by
  set s : ℝ := (xy_size : ℝ) with hsdef
  set Q : ℝ := Real.sqrt (0.5 * s * s) with hQdef
  have hQ0 : 0 ≤ Q := Real.sqrt_nonneg _
  have hQsq : Q ^ 2 = 0.5 * s * s := by
    rw [hQdef]
    exact Real.sq_sqrt (by positivity)
  have hs1 : (1 : ℝ) ≤ s := by
    rw [hsdef]
    exact_mod_cast hs
  have hi1 : (i : ℝ) + 1 ≤ s := by
    rw [hsdef]
    exact_mod_cast hi
  have hj1 : (j : ℝ) + 1 ≤ s := by
    rw [hsdef]
    exact_mod_cast hj
  have hi0 : (0 : ℝ) ≤ (i : ℝ) := Nat.cast_nonneg i
  have hj0 : (0 : ℝ) ≤ (j : ℝ) := Nat.cast_nonneg j
  have hdne : dxy ≠ 0 := ne_of_gt hd
  -- the length of calcRv in closed form
  have hratio : ((Q + 1) * dxy - 0) / (dxy / 2) = 2 * Q + 2 := by
    field_simp
    ring
  have hlen : (calcRv dxy xy_size).length = ⌈2 * Q + 2⌉₊ := by
    rw [calcRv, arange_length, ← hsdef, ← hQdef, hratio]
  have hceil2 : 2 ≤ ⌈2 * Q + 2⌉₊ := by
    have h1 : 2 * Q + 2 ≤ (⌈2 * Q + 2⌉₊ : ℝ) := Nat.le_ceil _
    have h2 : (2 : ℝ) ≤ (⌈2 * Q + 2⌉₊ : ℝ) := by linarith
    exact_mod_cast h2
  -- the last element of calcRv
  have hlast : (calcRv dxy xy_size).getD ((calcRv dxy xy_size).length - 1) 0 =
      ((⌈2 * Q + 2⌉₊ - 1 : ℕ) : ℝ) * (dxy / 2) := by
    rw [hlen]
    have hlt : ⌈2 * Q + 2⌉₊ - 1 <
        (arange 0 ((Q + 1) * dxy) (dxy / 2)).length := by
      rw [arange_length, hratio]
      omega
    have := arange_getD 0 ((Q + 1) * dxy) (dxy / 2) (⌈2 * Q + 2⌉₊ - 1) hlt
    rw [zero_add] at this
    rw [calcRv, ← hsdef, ← hQdef]
    exact this
  have hlb : 2 * Q + 1 ≤ ((⌈2 * Q + 2⌉₊ - 1 : ℕ) : ℝ) := by
    have h1 : 2 * Q + 2 ≤ (⌈2 * Q + 2⌉₊ : ℝ) := Nat.le_ceil _
    rw [Nat.cast_sub (by omega : 1 ≤ ⌈2 * Q + 2⌉₊)]
    push_cast
    linarith
  -- the pixel radius bound
  have hu1 : (j : ℝ) + 0.5 - s * 0.5 ≤ (s - 1) / 2 := by linarith
  have hu2 : -((s - 1) / 2) ≤ (j : ℝ) + 0.5 - s * 0.5 := by linarith
  have hv1 : (i : ℝ) + 0.5 - s * 0.5 ≤ (s - 1) / 2 := by linarith
  have hv2 : -((s - 1) / 2) ≤ (i : ℝ) + 0.5 - s * 0.5 := by linarith
  have hsq1 : ((j : ℝ) + 0.5 - s * 0.5) ^ 2 ≤ ((s - 1) / 2) ^ 2 :=
    sq_le_sq' hu2 hu1
  have hsq2 : ((i : ℝ) + 0.5 - s * 0.5) ^ 2 ≤ ((s - 1) / 2) ^ 2 :=
    sq_le_sq' hv2 hv1
  have harg : ((j : ℝ) + 0.5 - s * 0.5) ^ 2 + ((i : ℝ) + 0.5 - s * 0.5) ^ 2 ≤
      (Q + 0.5) ^ 2 := by
    nlinarith [hsq1, hsq2, hQsq, hQ0, hs1]
  have hsqrt : Real.sqrt
      (((j : ℝ) + 0.5 - s * 0.5) ^ 2 + ((i : ℝ) + 0.5 - s * 0.5) ^ 2) ≤
        Q + 0.5 := by
    rw [show Q + 0.5 = Real.sqrt ((Q + 0.5) ^ 2) from
      (Real.sqrt_sq (by linarith)).symm]
    exact Real.sqrt_le_sqrt harg
  constructor
  · rw [rpix]
    positivity
  · have step1 : rpix dxy xy_size i j ≤ dxy * (Q + 0.5) := by
      rw [rpix, ← hsdef]
      exact mul_le_mul_of_nonneg_left hsqrt hd.le
    have step2 : dxy * (Q + 0.5) = (2 * Q + 1) * (dxy / 2) := by ring
    have step3 : (2 * Q + 1) * (dxy / 2) ≤
        ((⌈2 * Q + 2⌉₊ - 1 : ℕ) : ℝ) * (dxy / 2) :=
      mul_le_mul_of_nonneg_right hlb (by linarith)
    rw [hlast]
    linarith

/-- Witness for claim C9 at `dxy = 1`, `xy_size = 1`, pixel `(0, 0)`. -/
theorem rpix_within_calcRv_range_witness :
    (0 : ℝ) < 1 ∧ (1 : ℕ) ≤ 1 ∧ (0 : ℕ) < 1 ∧
      (0 ≤ rpix 1 1 0 0 ∧
        rpix 1 1 0 0 ≤ (calcRv 1 1).getD ((calcRv 1 1).length - 1) 0) :=
  ⟨by norm_num, le_refl 1, by decide,
    rpix_within_calcRv_range 1 1 0 0 (by norm_num) (le_refl 1)
      (by decide) (by decide)⟩

end MicroscPSF
